import Mathlib

/-
Verification of the response-normalization core of LightRAG
(`convert_to_user_format` and its dynamic-field-extension mechanism).

The repository ships the tests (`tests/test_convert_to_user_format.py`) and
an example driver for `lightrag.utils.convert_to_user_format`; the function
itself is not part of the visible sources, so it is modelled here from the
specification (sections 3, 4.1, 6 and 7 of the design document): Python
values become the inductive type `PyValue`, Python dicts become association
lists with first-match lookup and in-place update, and the structural
failure raised on non-mapping elements becomes an `Except.error` result.
-/

set_option autoImplicit false

namespace LightRAG

/-- A Python value as it can appear inside a retrieval result: strings,
integers, floats (modelled as rationals, since the core only passes them
through and never computes with them), booleans, lists, dicts and `None`. -/
inductive PyValue : Type where
  | str : String → PyValue
  | int : Int → PyValue
  | float : ℚ → PyValue
  | bool : Bool → PyValue
  | list : List PyValue → PyValue
  | dict : List (String × PyValue) → PyValue
  | none : PyValue

/-- A Python dict, modelled as an association list in insertion order. -/
abbrev PyDict := List (String × PyValue)

/-- View a Python value as a mapping; non-mapping values have no view. -/
def PyValue.asDict : PyValue → Option PyDict
  | .dict d => Option.some d
  | _ => Option.none

/-- First-match lookup, the semantics of `d.get(k)` on a Python dict
(keys of a Python dict are unique, so first match is the match). -/
def dictGet : PyDict → String → Option PyValue
  | [], _ => Option.none
  | p :: rest, k => if p.1 = k then Option.some p.2 else dictGet rest k

/-- Keyed assignment `d[k] = v` on a Python dict: an existing key keeps its
position and gets the new value, a new key is appended at the end. -/
def dictSet : PyDict → String → PyValue → PyDict
  | [], k, v => [(k, v)]
  | p :: rest, k, v => if p.1 = k then (k, v) :: rest else p :: dictSet rest k v

/-- The keys of a dict, in insertion order. -/
def dictKeys (d : PyDict) : List String := d.map Prod.fst

/-- The four standard chunk fields of the output schema. -/
def standardFields : List String := ["reference_id", "content", "file_path", "chunk_id"]

/-- The fixed default used for an absent standard field: the
unknown-source sentinel for `file_path`, the empty string otherwise. -/
def standardDefault (k : String) : PyValue :=
  if k = "file_path" then PyValue.str "unknown_source" else PyValue.str ""

/-- Modelled from the spec: step 1 of the per-chunk processing policy
(section 4.1) — the four standard fields, each the raw chunk value when the
key is present and the fixed default otherwise. -/
def standardBase (chunk : PyDict) : PyDict :=
  [("reference_id", (dictGet chunk "reference_id").getD (PyValue.str "")),
   ("content", (dictGet chunk "content").getD (PyValue.str "")),
   ("file_path", (dictGet chunk "file_path").getD (PyValue.str "unknown_source")),
   ("chunk_id", (dictGet chunk "chunk_id").getD (PyValue.str ""))]

/-- Modelled from the spec: step 2 of the per-chunk processing policy for a
single requested name — look the name up in the raw chunk, copy its value
unchanged when present and store an explicit null when absent; by step 3 a
name that coincides with a standard field never overwrites it. -/
def extendStep (chunk acc : PyDict) (name : String) : PyDict :=
  if name ∈ standardFields then acc
  else dictSet acc name ((dictGet chunk name).getD PyValue.none)

/-- Modelled from the spec: the whole per-chunk transform of section 4.1 —
standard fields first, then the requested extension fields strictly after,
in the caller-given order. -/
def normalizeChunk (extra : List String) (chunk : PyDict) : PyDict :=
  List.foldl (extendStep chunk) (standardBase chunk) extra

/-- Check that every element of a result sequence is mapping-shaped,
returning the mappings, or nothing when some element is not a mapping. -/
def allDicts : List PyValue → Option (List PyDict)
  | [] => Option.some []
  | x :: xs =>
    match x.asDict, allDicts xs with
    | Option.some d, Option.some ds => Option.some (d :: ds)
    | _, _ => Option.none

/-- The `data` part of the response envelope (section 6 output schema). -/
structure ResponseData where
  entities : List PyValue
  relationships : List PyValue
  chunks : List PyDict
  references : List PyValue

/-- The `metadata` part of the response envelope. -/
structure ResponseMetadata where
  query_mode : String

/-- The canonical response envelope: `status`, `data`, `metadata`. -/
structure ResponseEnvelope where
  status : String
  data : ResponseData
  metadata : ResponseMetadata

/-- Modelled from the spec: `convert_to_user_format` of `lightrag.utils`
(absent from the visible sources). Entities, relations and references pass
through unchanged; chunks are normalized per section 4.1; the mode string
is copied verbatim into the metadata; an element of any of the four input
sequences that is not mapping-shaped propagates as a structural failure
(section 7) instead of a success envelope. -/
def convert_to_user_format (entities_context relations_context chunks references : List PyValue)
    (query_mode : String) (extra_chunk_fields : Option (List String)) :
    Except String ResponseEnvelope :=
  match allDicts entities_context, allDicts relations_context,
        allDicts chunks, allDicts references with
  | Option.some _, Option.some _, Option.some cs, Option.some _ =>
    Except.ok
      ⟨"success",
       ⟨entities_context, relations_context,
        cs.map (normalizeChunk (extra_chunk_fields.getD [])), references⟩,
       ⟨query_mode⟩⟩
  | _, _, _, _ =>
    Except.error "elements of entities, relations, chunks and references must be mappings"

/-! ### Dictionary lemmas -/

theorem dictGet_dictSet (d : PyDict) (k k' : String) (v : PyValue) :
    dictGet (dictSet d k v) k' =
      if k' = k then Option.some v else dictGet d k' := by
  induction d with
  | nil =>
    by_cases h : k' = k
    · simp [dictSet, dictGet, h]
    · have h2 : ¬ k = k' := fun e => h e.symm
      simp [dictSet, dictGet, h, h2]
  | cons p rest ih =>
    by_cases hpk : p.1 = k
    · by_cases hk : k' = k
      · simp [dictSet, dictGet, hpk, hk]
      · have hpk' : ¬ p.1 = k' := fun h => hk ((hpk.symm.trans h).symm)
        have hkk : ¬ k = k' := fun e => hk e.symm
        simp [dictSet, dictGet, hpk, hk, hpk', hkk]
    · by_cases hpk' : p.1 = k'
      · have hk : ¬ k' = k := fun h => hpk (hpk'.trans h)
        simp [dictSet, dictGet, hpk, hpk', hk]
      · simp [dictSet, dictGet, hpk, hpk', ih]

theorem mem_dictKeys_dictSet (d : PyDict) (k k' : String) (v : PyValue) :
    k' ∈ dictKeys (dictSet d k v) ↔ k' = k ∨ k' ∈ dictKeys d := by
  induction d with
  | nil => simp [dictSet, dictKeys]
  | cons p rest ih =>
    by_cases hpk : p.1 = k
    · simp [dictSet, dictKeys, hpk]
      try tauto
    · simp [dictSet, dictKeys, hpk] at ih ⊢
      try tauto

/-! ### Lemmas about the extension fold -/

theorem dictGet_fold_standard (chunk : PyDict) (extra : List String) (acc : PyDict)
    (k : String) (hk : k ∈ standardFields) :
    dictGet (List.foldl (extendStep chunk) acc extra) k = dictGet acc k := by
  induction extra generalizing acc with
  | nil => rfl
  | cons n t ih =>
    rw [List.foldl_cons, ih]
    by_cases hn : n ∈ standardFields
    · simp [extendStep, hn]
    · have hkn : ¬ k = n := fun h => hn (h ▸ hk)
      simp [extendStep, hn, dictGet_dictSet, hkn]

theorem dictGet_fold_extra (chunk : PyDict) (extra : List String) (acc : PyDict)
    (name : String) (hstd : name ∉ standardFields) :
    dictGet (List.foldl (extendStep chunk) acc extra) name =
      if name ∈ extra then Option.some ((dictGet chunk name).getD PyValue.none)
      else dictGet acc name := by
  induction extra generalizing acc with
  | nil => simp
  | cons n t ih =>
    rw [List.foldl_cons, ih]
    by_cases hmem : name ∈ t
    · simp [hmem]
    · by_cases hn : name = n
      · subst hn
        simp [hmem, extendStep, hstd, dictGet_dictSet]
      · have hnot : name ∉ n :: t := by simp [hn, hmem]
        rw [if_neg hnot, if_neg hmem]
        by_cases hns : n ∈ standardFields
        · simp [extendStep, hns]
        · simp [extendStep, hns, dictGet_dictSet, hn]

theorem mem_dictKeys_fold (chunk : PyDict) (extra : List String) (acc : PyDict)
    (k : String) :
    k ∈ dictKeys (List.foldl (extendStep chunk) acc extra) ↔
      k ∈ dictKeys acc ∨ (k ∈ extra ∧ k ∉ standardFields) := by
  induction extra generalizing acc with
  | nil => simp
  | cons n t ih =>
    rw [List.foldl_cons, ih]
    by_cases hns : n ∈ standardFields
    · simp only [extendStep, if_pos hns, List.mem_cons]
      constructor
      · rintro (h | ⟨h1, h2⟩)
        · exact Or.inl h
        · exact Or.inr ⟨Or.inr h1, h2⟩
      · rintro (h | ⟨h1 | h1, h2⟩)
        · exact Or.inl h
        · exact absurd (h1 ▸ hns) h2
        · exact Or.inr ⟨h1, h2⟩
    · simp only [extendStep, if_neg hns, mem_dictKeys_dictSet, List.mem_cons]
      constructor
      · rintro ((h | h) | ⟨h1, h2⟩)
        · exact Or.inr ⟨Or.inl h, h ▸ hns⟩
        · exact Or.inl h
        · exact Or.inr ⟨Or.inr h1, h2⟩
      · rintro (h | ⟨h1 | h1, h2⟩)
        · exact Or.inl (Or.inr h)
        · exact Or.inl (Or.inl h1)
        · exact Or.inr ⟨h1, h2⟩

/-! ### Evaluating the standard base -/

theorem dictGet_standardBase_reference_id (chunk : PyDict) :
    dictGet (standardBase chunk) "reference_id" =
      Option.some ((dictGet chunk "reference_id").getD (PyValue.str "")) := by
  simp [standardBase, dictGet]

theorem dictGet_standardBase_content (chunk : PyDict) :
    dictGet (standardBase chunk) "content" =
      Option.some ((dictGet chunk "content").getD (PyValue.str "")) := by
  simp [standardBase, dictGet]

theorem dictGet_standardBase_file_path (chunk : PyDict) :
    dictGet (standardBase chunk) "file_path" =
      Option.some ((dictGet chunk "file_path").getD (PyValue.str "unknown_source")) := by
  simp [standardBase, dictGet]

theorem dictGet_standardBase_chunk_id (chunk : PyDict) :
    dictGet (standardBase chunk) "chunk_id" =
      Option.some ((dictGet chunk "chunk_id").getD (PyValue.str "")) := by
  simp [standardBase, dictGet]

theorem dictGet_standardBase_std (chunk : PyDict) (k : String) (hk : k ∈ standardFields) :
    dictGet (standardBase chunk) k =
      Option.some ((dictGet chunk k).getD (standardDefault k)) := by
  simp only [standardFields, List.mem_cons, List.not_mem_nil, or_false] at hk
  rcases hk with h | h | h | h <;> subst h <;>
    simp [standardBase, dictGet, standardDefault]

theorem dictKeys_standardBase (chunk : PyDict) :
    dictKeys (standardBase chunk) = standardFields := rfl

/-! ### Evaluating the normalizer and the envelope on well-formed input -/

theorem allDicts_map_dict (xs : List PyDict) :
    allDicts (xs.map PyValue.dict) = Option.some xs := by
  induction xs with
  | nil => rfl
  | cons d t ih => simp [allDicts, PyValue.asDict, ih]

theorem convert_map_dict (es rs cs rfs : List PyDict) (mode : String)
    (extra : Option (List String)) :
    convert_to_user_format (es.map PyValue.dict) (rs.map PyValue.dict)
      (cs.map PyValue.dict) (rfs.map PyValue.dict) mode extra =
    Except.ok
      ⟨"success",
       ⟨es.map PyValue.dict, rs.map PyValue.dict,
        cs.map (normalizeChunk (extra.getD [])), rfs.map PyValue.dict⟩,
       ⟨mode⟩⟩ := by
  simp [convert_to_user_format, allDicts_map_dict]

theorem forall2_map_self {α β : Type} (R : α → β → Prop) (f : α → β) (l : List α)
    (h : ∀ x ∈ l, R x (f x)) : List.Forall₂ R l (l.map f) := by
  induction l with
  | nil => simp
  | cons a t ih =>
    exact List.Forall₂.cons (h a (by simp)) (ih fun x hx => h x (by simp [hx]))

theorem dictGet_normalizeChunk_extra (extra : List String) (chunk : PyDict)
    (name : String) (hmem : name ∈ extra) (hstd : name ∉ standardFields) :
    dictGet (normalizeChunk extra chunk) name =
      Option.some ((dictGet chunk name).getD PyValue.none) := by
  simp only [normalizeChunk]
  rw [dictGet_fold_extra chunk extra _ name hstd, if_pos hmem]

theorem dictGet_normalizeChunk_std (extra : List String) (chunk : PyDict)
    (k : String) (hk : k ∈ standardFields) :
    dictGet (normalizeChunk extra chunk) k =
      Option.some ((dictGet chunk k).getD (standardDefault k)) := by
  simp only [normalizeChunk]
  rw [dictGet_fold_standard chunk extra _ k hk, dictGet_standardBase_std chunk k hk]

theorem mem_dictKeys_normalizeChunk (extra : List String) (chunk : PyDict) (k : String) :
    k ∈ dictKeys (normalizeChunk extra chunk) ↔ k ∈ standardFields ∨ k ∈ extra := by
  simp only [normalizeChunk]
  rw [mem_dictKeys_fold, dictKeys_standardBase]
  constructor
  · rintro (h | ⟨h1, _⟩)
    · exact Or.inl h
    · exact Or.inr h1
  · rintro (h | h)
    · exact Or.inl h
    · by_cases hs : k ∈ standardFields
      · exact Or.inl hs
      · exact Or.inr ⟨h, hs⟩

theorem allDicts_eq_none (xs : List PyValue) (h : ∃ x ∈ xs, x.asDict = Option.none) :
    allDicts xs = Option.none := by
  induction xs with
  | nil => simp at h
  | cons y t ih =>
    rcases h with ⟨x, hx, hnd⟩
    rcases List.mem_cons.mp hx with h1 | h1
    · subst h1
      simp [allDicts, hnd]
    · cases h2 : y.asDict <;> simp [allDicts, h2, ih ⟨x, h1, hnd⟩]

/-! ### The claims -/

/-- C1: for every chunk and every name in `extra_chunk_fields` that is not a
standard field name, the corresponding output chunk maps that name to the raw
chunk value unchanged (so its type is preserved) when the raw chunk has the
key, and to an explicit null when it does not — the key is present in the
output chunk either way, never omitted. -/
theorem extra_field_projection (es rs cs rfs : List PyDict) (mode : String)
    (extra : List String) (name : String)
    (hmem : name ∈ extra) (hstd : name ∉ standardFields) :
    ∃ env, convert_to_user_format (es.map PyValue.dict) (rs.map PyValue.dict)
        (cs.map PyValue.dict) (rfs.map PyValue.dict) mode (Option.some extra) =
        Except.ok env ∧
      List.Forall₂ (fun raw out =>
          dictGet out name = Option.some ((dictGet raw name).getD PyValue.none))
        cs env.data.chunks := by
  refine ⟨_, convert_map_dict es rs cs rfs mode (Option.some extra), ?_⟩
  exact forall2_map_self _ _ cs fun ch _ =>
    dictGet_normalizeChunk_extra extra ch name hmem hstd

theorem extra_field_projection_witness :
    ∃ env, convert_to_user_format [] [] [PyValue.dict [("page_idx", PyValue.int 5)]] []
        "naive" (Option.some ["page_idx"]) = Except.ok env ∧
      List.Forall₂ (fun raw out =>
          dictGet out "page_idx" = Option.some ((dictGet raw "page_idx").getD PyValue.none))
        [[("page_idx", PyValue.int 5)]] env.data.chunks :=
  extra_field_projection [] [] [[("page_idx", PyValue.int 5)]] [] "naive"
    ["page_idx"] "page_idx" (by simp) (by simp [standardFields])

/-- C2: the output `data.chunks` sequence has the same length as the input
chunks sequence, and the i-th output chunk is the normalization of the i-th
input chunk — order preserved, no element added, dropped or reordered. -/
theorem chunks_length_order (es rs cs rfs : List PyDict) (mode : String)
    (extra : Option (List String)) :
    ∃ env, convert_to_user_format (es.map PyValue.dict) (rs.map PyValue.dict)
        (cs.map PyValue.dict) (rfs.map PyValue.dict) mode extra = Except.ok env ∧
      env.data.chunks.length = cs.length ∧
      env.data.chunks = cs.map (normalizeChunk (extra.getD [])) ∧
      ∀ i : Nat, env.data.chunks[i]? = (cs[i]?).map (normalizeChunk (extra.getD [])) := by
  refine ⟨_, convert_map_dict es rs cs rfs mode extra, ?_, rfl, ?_⟩
  · exact List.length_map cs _
  · intro i
    simp [List.getElem?_map]

/-- C3: each of the four standard fields of an output chunk equals the raw
chunk value when the key is present, and otherwise the fixed default: the
empty string for `reference_id`, `content` and `chunk_id`, and the
unknown-source sentinel string for `file_path`. -/
theorem standard_fields_defaulted (es rs cs rfs : List PyDict) (mode : String)
    (extra : Option (List String)) :
    ∃ env, convert_to_user_format (es.map PyValue.dict) (rs.map PyValue.dict)
        (cs.map PyValue.dict) (rfs.map PyValue.dict) mode extra = Except.ok env ∧
      List.Forall₂ (fun raw out =>
          dictGet out "reference_id" =
            Option.some ((dictGet raw "reference_id").getD (PyValue.str "")) ∧
          dictGet out "content" =
            Option.some ((dictGet raw "content").getD (PyValue.str "")) ∧
          dictGet out "file_path" =
            Option.some ((dictGet raw "file_path").getD (PyValue.str "unknown_source")) ∧
          dictGet out "chunk_id" =
            Option.some ((dictGet raw "chunk_id").getD (PyValue.str "")))
        cs env.data.chunks := by
  refine ⟨_, convert_map_dict es rs cs rfs mode extra, ?_⟩
  refine forall2_map_self _ _ cs fun ch _ => ⟨?_, ?_, ?_, ?_⟩ <;>
    rw [dictGet_normalizeChunk_std _ ch _ (by simp [standardFields])] <;>
    simp [standardDefault]

/-- C4: when a requested extension name coincides with a standard field
name, the output chunk value for that key is the standard-field
value-or-default computed in step 1, identical to what a call with no
extension fields produces — the extension step never overwrites it. -/
theorem extra_standard_collision (es rs cs rfs : List PyDict) (mode : String)
    (extra : List String) (name : String)
    (_hmem : name ∈ extra) (hstd : name ∈ standardFields) :
    ∃ env, convert_to_user_format (es.map PyValue.dict) (rs.map PyValue.dict)
        (cs.map PyValue.dict) (rfs.map PyValue.dict) mode (Option.some extra) =
        Except.ok env ∧
      List.Forall₂ (fun raw out =>
          dictGet out name = Option.some ((dictGet raw name).getD (standardDefault name)) ∧
          dictGet out name = dictGet (normalizeChunk [] raw) name)
        cs env.data.chunks := by
  refine ⟨_, convert_map_dict es rs cs rfs mode (Option.some extra), ?_⟩
  refine forall2_map_self _ _ cs fun ch _ => ⟨?_, ?_⟩
  · exact dictGet_normalizeChunk_std extra ch name hstd
  · show dictGet (normalizeChunk extra ch) name = dictGet (normalizeChunk [] ch) name
    rw [dictGet_normalizeChunk_std extra ch name hstd,
      dictGet_normalizeChunk_std [] ch name hstd]

theorem extra_standard_collision_witness :
    ∃ env, convert_to_user_format [] []
        [PyValue.dict [("content", PyValue.str "Test content"), ("chunk_id", PyValue.str "chunk-1")]]
        [] "naive" (Option.some ["content", "chunk_id"]) = Except.ok env ∧
      List.Forall₂ (fun raw out =>
          dictGet out "content" =
            Option.some ((dictGet raw "content").getD (standardDefault "content")) ∧
          dictGet out "content" = dictGet (normalizeChunk [] raw) "content")
        [[("content", PyValue.str "Test content"), ("chunk_id", PyValue.str "chunk-1")]]
        env.data.chunks :=
  extra_standard_collision [] []
    [[("content", PyValue.str "Test content"), ("chunk_id", PyValue.str "chunk-1")]]
    [] "naive" ["content", "chunk_id"] "content" (by simp) (by simp [standardFields])

/-- C5: the key set of every output chunk is exactly the four standard keys
union the requested names — a non-standard key appears in the output chunk
iff it was requested, no matter which extra keys the raw chunk contained. -/
theorem output_chunk_key_set (es rs cs rfs : List PyDict) (mode : String)
    (extra : List String) :
    ∃ env, convert_to_user_format (es.map PyValue.dict) (rs.map PyValue.dict)
        (cs.map PyValue.dict) (rfs.map PyValue.dict) mode (Option.some extra) =
        Except.ok env ∧
      List.Forall₂ (fun _raw out =>
          ∀ k : String, k ∈ dictKeys out ↔ (k ∈ standardFields ∨ k ∈ extra))
        cs env.data.chunks := by
  refine ⟨_, convert_map_dict es rs cs rfs mode (Option.some extra), ?_⟩
  exact forall2_map_self _ _ cs fun ch _ => fun k =>
    mem_dictKeys_normalizeChunk extra ch k

/-- C6: calling with `extra_chunk_fields` omitted and calling with the empty
list produce identical output envelopes, whose chunks carry exactly the four
standard keys, in the pre-extension order. -/
theorem none_empty_equivalent (es rs cs rfs : List PyDict) (mode : String) :
    convert_to_user_format (es.map PyValue.dict) (rs.map PyValue.dict)
        (cs.map PyValue.dict) (rfs.map PyValue.dict) mode Option.none =
      convert_to_user_format (es.map PyValue.dict) (rs.map PyValue.dict)
        (cs.map PyValue.dict) (rfs.map PyValue.dict) mode (Option.some []) ∧
    ∃ env, convert_to_user_format (es.map PyValue.dict) (rs.map PyValue.dict)
        (cs.map PyValue.dict) (rfs.map PyValue.dict) mode Option.none = Except.ok env ∧
      List.Forall₂ (fun _raw out => dictKeys out = standardFields) cs env.data.chunks := by
  refine ⟨rfl, _, convert_map_dict es rs cs rfs mode Option.none, ?_⟩
  exact forall2_map_self _ _ cs fun ch _ => rfl

/-- C7: the output `data.entities`, `data.relationships` and
`data.references` sequences are the input entities, relations and references
sequences unchanged, with identical lengths. -/
theorem passthrough_sequences (es rs cs rfs : List PyDict) (mode : String)
    (extra : Option (List String)) :
    ∃ env, convert_to_user_format (es.map PyValue.dict) (rs.map PyValue.dict)
        (cs.map PyValue.dict) (rfs.map PyValue.dict) mode extra = Except.ok env ∧
      env.data.entities = es.map PyValue.dict ∧
      env.data.relationships = rs.map PyValue.dict ∧
      env.data.references = rfs.map PyValue.dict ∧
      env.data.entities.length = es.length ∧
      env.data.relationships.length = rs.length ∧
      env.data.references.length = rfs.length := by
  refine ⟨_, convert_map_dict es rs cs rfs mode extra, rfl, rfl, rfl, ?_, ?_, ?_⟩ <;>
    exact List.length_map _ _

/-- C8: an input in which some element of chunks, entities, relations or
references is not a mapping produces a structural failure propagated to the
caller, never a success envelope. -/
theorem malformed_element_error (es rs cs rfs : List PyValue) (mode : String)
    (extra : Option (List String))
    (h : (∃ x ∈ es, x.asDict = Option.none) ∨ (∃ x ∈ rs, x.asDict = Option.none) ∨
         (∃ x ∈ cs, x.asDict = Option.none) ∨ (∃ x ∈ rfs, x.asDict = Option.none)) :
    ∃ msg, convert_to_user_format es rs cs rfs mode extra = Except.error msg := by
  refine ⟨"elements of entities, relations, chunks and references must be mappings", ?_⟩
  rcases h with h | h | h | h
  · simp [convert_to_user_format, allDicts_eq_none es h]
  · cases hes : allDicts es <;>
      simp [convert_to_user_format, hes, allDicts_eq_none rs h]
  · cases hes : allDicts es <;> cases hrs : allDicts rs <;>
      simp [convert_to_user_format, hes, hrs, allDicts_eq_none cs h]
  · cases hes : allDicts es <;> cases hrs : allDicts rs <;> cases hcs : allDicts cs <;>
      simp [convert_to_user_format, hes, hrs, hcs, allDicts_eq_none rfs h]

theorem malformed_element_error_witness :
    ∃ msg, convert_to_user_format [] [] [PyValue.int 3] [] "naive" Option.none =
      Except.error msg :=
  malformed_element_error [] [] [PyValue.int 3] [] "naive" Option.none
    (Or.inr (Or.inr (Or.inl ⟨PyValue.int 3, by simp, rfl⟩)))

/-- C9: on well-formed input — four sequences of mappings, any mode string,
any optional field-name list — the function returns a success envelope whose
status is the success tag; missing keys never cause a failure. -/
theorem wellformed_success (es rs cs rfs : List PyDict) (mode : String)
    (extra : Option (List String)) :
    ∃ env, convert_to_user_format (es.map PyValue.dict) (rs.map PyValue.dict)
        (cs.map PyValue.dict) (rfs.map PyValue.dict) mode extra = Except.ok env ∧
      env.status = "success" :=
  ⟨_, convert_map_dict es rs cs rfs mode extra, rfl⟩

/-- C10: the output `metadata.query_mode` equals exactly the mode string
supplied by the caller, for every string, with no validation against a fixed
set of mode labels. -/
theorem query_mode_verbatim (es rs cs rfs : List PyDict) (mode : String)
    (extra : Option (List String)) :
    ∃ env, convert_to_user_format (es.map PyValue.dict) (rs.map PyValue.dict)
        (cs.map PyValue.dict) (rfs.map PyValue.dict) mode extra = Except.ok env ∧
      env.metadata.query_mode = mode :=
  ⟨_, convert_map_dict es rs cs rfs mode extra, rfl⟩

end LightRAG
